import Mathlib

/-!
Verification of the redo meta manager (`cdc/redo/meta_manager.go`) and the
capture run loop (`cdc/capture/capture.go`) of the tiflow repository.

Timestamps (Go `uint64`) are modelled as `Nat`: the code only
compares timestamps and takes maxima, it never performs wrapping arithmetic.
File paths are modelled as `List Char` and external storage as an association
list from paths to file contents.
-/

namespace Tiflow

/-- `common.LogMeta`: the durable pair `(checkpointTs, resolvedTs)`. -/
structure LogMeta where
  checkpointTs : Nat
  resolvedTs : Nat
  deriving DecidableEq, Repr

/-- Modelled from the spec: `statefulRts` (the StatefulTs primitive) holds an
`unflushed` and a `flushed` timestamp; the type itself is declared in the redo
package but outside the provided sources. -/
structure statefulRts where
  unflushed : Nat
  flushed : Nat
  deriving DecidableEq, Repr

/-- Modelled from the spec: `statefulRts.checkAndSetUnflushed(v)` returns
`false` and makes no change when `v` is below the current `unflushed` value,
otherwise it stores `v` and returns `true`. -/
def checkAndSetUnflushed (s : statefulRts) (v : Nat) : Bool × statefulRts :=
  if v < s.unflushed then (false, s) else (true, { s with unflushed := v })

/-- Modelled from the spec: `statefulRts.setFlushed(v)` stores `v` as the
flushed value; it is called by the flusher only after persistence succeeds. -/
def setFlushed (s : statefulRts) (v : Nat) : statefulRts :=
  { s with flushed := v }

/-- Modelled from the spec: `statefulRts.getFlushed`. -/
def getFlushed (s : statefulRts) : Nat := s.flushed

/-- Modelled from the spec: `statefulRts.getUnflushed`. -/
def getUnflushed (s : statefulRts) : Nat := s.unflushed

/-- The timestamp state of `metaManager`: the fields `metaCheckpointTs` and
`metaResolvedTs` of the Go struct. -/
structure MetaTs where
  metaCheckpointTs : statefulRts
  metaResolvedTs : statefulRts
  deriving DecidableEq, Repr

/-- `metaManager.UpdateMeta(checkpointTs, resolvedTs)`: check-and-set the
resolved ts, then the checkpoint ts, each independently; a regressed value is
dropped (the Go code only logs a warning in that case). -/
def UpdateMeta (m : MetaTs) (checkpointTs resolvedTs : Nat) : MetaTs :=
  let r := checkAndSetUnflushed m.metaResolvedTs resolvedTs
  let c := checkAndSetUnflushed m.metaCheckpointTs checkpointTs
  { metaCheckpointTs := c.2, metaResolvedTs := r.2 }

/-- `metaManager.GetFlushedMeta`: reads the flushed values of both fields. -/
def GetFlushedMeta (m : MetaTs) : LogMeta :=
  { checkpointTs := getFlushed m.metaCheckpointTs
    resolvedTs := getFlushed m.metaResolvedTs }

/-- `metaManager.prepareForFlushMeta`: snapshot flushed and unflushed pairs;
there is a change exactly when some unflushed field is strictly ahead. -/
def prepareForFlushMeta (m : MetaTs) : Bool × LogMeta :=
  let flushed : LogMeta :=
    { checkpointTs := getFlushed m.metaCheckpointTs
      resolvedTs := getFlushed m.metaResolvedTs }
  let unflushed : LogMeta :=
    { checkpointTs := getUnflushed m.metaCheckpointTs
      resolvedTs := getUnflushed m.metaResolvedTs }
  let hasChange := decide (flushed.checkpointTs < unflushed.checkpointTs) ||
    decide (flushed.resolvedTs < unflushed.resolvedTs)
  (hasChange, unflushed)

/-- `metaManager.postFlushMeta`: publish the flushed meta after a successful
write of the meta file. -/
def postFlushMeta (m : MetaTs) (meta : LogMeta) : MetaTs :=
  { metaCheckpointTs := setFlushed m.metaCheckpointTs meta.checkpointTs
    metaResolvedTs := setFlushed m.metaResolvedTs meta.resolvedTs }

/-- One observable event on the timestamp state of the manager:
an `UpdateMeta` call, a background flush tick whose storage write succeeded,
or a flush tick whose storage write failed (no `postFlushMeta`). -/
inductive MetaOp where
  | update (checkpointTs resolvedTs : Nat)
  | flushOk
  | flushFail
  deriving DecidableEq, Repr

/-- The effect of one `MetaOp` on the timestamp state: a successful
`maybeFlushMeta` tick publishes the unflushed snapshot via `postFlushMeta`
when some field advanced, and otherwise leaves the state alone; a failed
flush never reaches `postFlushMeta`. -/
def stepTs (m : MetaTs) : MetaOp → MetaTs
  | .update c r => UpdateMeta m c r
  | .flushOk =>
    let pr := prepareForFlushMeta m
    if pr.1 then postFlushMeta m pr.2 else m
  | .flushFail => m

/-- Run a sequence of operations against the timestamp state. -/
def runOps (m : MetaTs) : List MetaOp → MetaTs
  | [] => m
  | op :: rest => runOps (stepTs m op) rest

/-- The StatefulTs invariant: each field's flushed value is at most its
unflushed value. `initMeta` establishes it (it seeds `unflushed` and then
flushes that very snapshot). -/
def TsInv (m : MetaTs) : Prop :=
  m.metaCheckpointTs.flushed ≤ m.metaCheckpointTs.unflushed ∧
  m.metaResolvedTs.flushed ≤ m.metaResolvedTs.unflushed

/-- Checks whether the first list is a prefix of the second (Boolean). -/
def isPrefixList : List Char → List Char → Bool
  | [], _ => true
  | _ :: _, [] => false
  | a :: as, b :: bs => decide (a = b) && isPrefixList as bs

/-- Go `strings.Contains`: the second list occurs as a contiguous substring of
the first. -/
def containsSub : List Char → List Char → Bool
  | [], sub => sub.isEmpty
  | s@(_ :: t), sub => isPrefixList sub s || containsSub t sub

/-- Go `strings.HasSuffix`. -/
def hasSuffixList (s suffix : List Char) : Bool :=
  isPrefixList suffix.reverse s.reverse

/-- Helper for `filepathExt`: scans the reversed path; stops at the last dot
(returning the extension including the dot) or at a path separator. -/
def extRevAux : List Char → List Char → List Char
  | [], _ => []
  | c :: rest, acc =>
    if c = '.' then '.' :: acc
    else if c = '/' then []
    else extRevAux rest (c :: acc)

/-- Go `filepath.Ext`: the suffix beginning at the final dot in the final
path element; empty if there is no dot. -/
def filepathExt (p : List Char) : List Char :=
  extRevAux p.reverse []

/-- Go `strings.Split(s, "_")` (used by the modelled log-file-name decoder). -/
def splitUnderscore : List Char → List (List Char)
  | [] => [[]]
  | c :: t =>
    if c = '_' then [] :: splitUnderscore t
    else
      match splitUnderscore t with
      | h :: rest => (c :: h) :: rest
      | [] => [[c]]

/-- Parses a decimal digit sequence, accumulating into `acc`. -/
def digitsToNatAux : List Char → Nat → Option Nat
  | [], acc => some acc
  | c :: t, acc =>
    if '0' ≤ c ∧ c ≤ '9' then digitsToNatAux t (acc * 10 + (c.toNat - '0'.toNat))
    else none

/-- Parses a nonempty decimal digit sequence into a `Nat`. -/
def parseNatDigits : List Char → Option Nat
  | [] => none
  | c :: t => digitsToNatAux (c :: t) 0

/-- `redo.MetaEXT`. -/
def MetaEXT : List Char := ".meta".data

/-- `redo.LogEXT`. -/
def LogEXT : List Char := ".log".data

/-- `redo.RedoMetaFileType`. -/
def RedoMetaFileType : List Char := "meta".data

/-- `redo.RedoRowLogFileType`. -/
def RedoRowLogFileType : List Char := "row".data

/-- `redo.RedoDDLLogFileType`. -/
def RedoDDLLogFileType : List Char := "ddl".data

/-- `model.DefaultNamespace`, also the literal `"default"` used by
`getChangefeedMatcher`. -/
def DefaultNamespace : List Char := "default".data

/-- `model.ChangeFeedID`: a (namespace, id) pair. -/
structure ChangeFeedID where
  Namespace : List Char
  ID : List Char
  deriving DecidableEq, Repr

/-- `getChangefeedMatcher`: `_<feed>_` for the default namespace,
`_<namespace>_<feed>_` otherwise. -/
def getChangefeedMatcher (cf : ChangeFeedID) : List Char :=
  if cf.Namespace = DefaultNamespace then '_' :: cf.ID ++ ['_']
  else '_' :: cf.Namespace ++ '_' :: cf.ID ++ ['_']

/-- `getDeletedChangefeedMarker`: `delete_<feed>` for the default namespace,
`delete_<namespace>_<feed>` otherwise. -/
def getDeletedChangefeedMarker (cf : ChangeFeedID) : List Char :=
  if cf.Namespace = DefaultNamespace then "delete_".data ++ cf.ID
  else "delete_".data ++ cf.Namespace ++ '_' :: cf.ID

/-- `getMetafileName`: `<capture>_<namespace>_<feed>_meta_<uuid>.meta`
(the `redo.RedoMetaFileFormat` layout). -/
def getMetafileName (captureID : List Char) (cf : ChangeFeedID)
    (uuidStr : List Char) : List Char :=
  captureID ++ '_' :: cf.Namespace ++ '_' :: cf.ID ++ '_' :: RedoMetaFileType ++
    '_' :: uuidStr ++ MetaEXT

/-- Modelled from the spec: `redo.ParseLogFileName` decodes
`(maxCommitTs, fileType)` from a redo log file name; the function lives in
`pkg/redo` outside the provided sources. In the model a log file name is
`<prefix>_<fileType>_<maxCommitTs>.log`; any other shape fails to parse. -/
def ParseLogFileName (path : List Char) : Option (Nat × List Char) :=
  if filepathExt path = LogEXT then
    let base := path.take (path.length - LogEXT.length)
    match (splitUnderscore base).reverse with
    | tsStr :: fileType :: _ =>
      match parseNatDigits tsStr with
      | some ts => some (ts, fileType)
      | none => none
    | _ => none
  else none

/-- The content of one object in external storage: either a msgpack-encoded
`LogMeta` or raw bytes (the empty byte list models an empty object). -/
inductive Content where
  | metaC (lm : LogMeta)
  | bytes (bs : List Char)
  deriving DecidableEq, Repr

/-- Modelled from the spec: external storage is a set of objects addressed by
path; modelled as an association list (the walk order is the list order). -/
abbrev Storage := List (List Char × Content)

/-- Modelled from the spec: `extStorage.FileExists`. -/
def fileExists (st : Storage) (p : List Char) : Bool :=
  st.any (fun e => decide (e.1 = p))

/-- Modelled from the spec: `extStorage.ReadFile` (`none` is not-found). -/
def lookupFile (st : Storage) (p : List Char) : Option Content :=
  (st.find? (fun e => decide (e.1 = p))).map Prod.snd

/-- Removes the object at path `p` (a no-op when absent). -/
def deletePath (st : Storage) (p : List Char) : Storage :=
  st.filter (fun e => !(decide (e.1 = p)))

/-- Modelled from the spec: `extStorage.WriteFile` is atomic per object:
it replaces any previous content of the path. -/
def writeFile (st : Storage) (p : List Char) (c : Content) : Storage :=
  (p, c) :: deletePath st p

/-- Modelled from the spec: `util.DeleteFilesInExtStorage` deletes the given
paths, tolerating absent ones. -/
def deletePaths (st : Storage) (ps : List (List Char)) : Storage :=
  st.filter (fun e => !(decide (e.1 ∈ ps)))

/-- Modelled from the spec: `util.RemoveFilesIf` with a pure predicate:
removes every object whose path satisfies the predicate. -/
def removeFilesIfPure (pred : List Char → Bool) (st : Storage) : Storage :=
  st.filter (fun e => !(pred e.1))

/-- Modelled from the spec: `util.RemoveFilesIf` with a predicate that may
panic (`Except.error`): the walk aborts on the first panic and removes
nothing in that case. -/
def removeFilesIfE (pred : List Char → Except Unit Bool) : Storage → Except Unit Storage
  | [] => .ok []
  | e :: rest =>
    match pred e.1 with
    | .error u => .error u
    | .ok b =>
      match removeFilesIfE pred rest with
      | .error u => .error u
      | .ok rest' => .ok (if b then rest' else e :: rest')

/-- The error classes produced by the meta manager (`pkg/errors` wrappers);
`panicErr` stands for `log.Panic`, which aborts the process. -/
inductive RedoErr where
  | marshalFailed
  | externalStorageAPI
  | redoMetaInitialize
  | panicErr
  deriving DecidableEq, Repr

/-- The mutable state of `metaManager` that the flush path touches: the two
stateful timestamps, `preMetaFile`, and the external storage contents. -/
structure MgrState where
  ts : MetaTs
  preMetaFile : List Char
  storage : Storage
  deriving DecidableEq, Repr

/-- Failure injection for one `flush` call: whether `MarshalMsg`, the
storage write, and the storage delete succeed. A `false` `deleteOk` means
the delete returns an error other than not-found. -/
structure FlushEnv where
  marshalOk : Bool
  writeOk : Bool
  deleteOk : Bool
  deriving DecidableEq, Repr

/-- The environment in which every storage operation succeeds. -/
def allOkEnv : FlushEnv := ⟨true, true, true⟩

/-- `metaManager.flush`: marshal the meta, write it to a new uuid-suffixed
file, then delete the previous meta file (not-found tolerated; equality of
old and new names short-circuits), then remember the new name. The returned
state reflects the mutations performed before any failure. -/
def flush (env : FlushEnv) (captureID : List Char) (cf : ChangeFeedID)
    (uuidStr : List Char) (st : MgrState) (meta : LogMeta) :
    Except RedoErr Unit × MgrState :=
  if env.marshalOk = false then (.error .marshalFailed, st)
  else
    let metaFile := getMetafileName captureID cf uuidStr
    if env.writeOk = false then (.error .externalStorageAPI, st)
    else
      let st1 : MgrState := { st with storage := writeFile st.storage metaFile (.metaC meta) }
      if st.preMetaFile = [] then (.ok (), { st1 with preMetaFile := metaFile })
      else if st.preMetaFile = metaFile then (.ok (), st1)
      else if env.deleteOk = false then (.error .externalStorageAPI, st1)
      else
        (.ok (), { st1 with
          storage := deletePath st1.storage st.preMetaFile
          preMetaFile := metaFile })

/-- `metaManager.maybeFlushMeta`: snapshot the pending change; if some field
advanced, run `flush` and publish via `postFlushMeta` only on success. -/
def maybeFlushMeta (env : FlushEnv) (captureID : List Char) (cf : ChangeFeedID)
    (uuidStr : List Char) (st : MgrState) : Except RedoErr Unit × MgrState :=
  let pr := prepareForFlushMeta st.ts
  if pr.1 = false then (.ok (), st)
  else
    match flush env captureID cf uuidStr st pr.2 with
    | (.error e, st') => (.error e, st')
    | (.ok _, st') => (.ok (), { st' with ts := postFlushMeta st'.ts pr.2 })

/-- `metaManager.shouldRemoved`: a file is swept iff its path contains the
changefeed matcher, has the `.log` extension, parses to a known log file
type, and its `maxCommitTs` is strictly below the checkpoint. An unknown
file type on a matching `.log` file panics (`Except.error`). -/
def shouldRemoved (cf : ChangeFeedID) (path : List Char) (checkPointTs : Nat) :
    Except Unit Bool :=
  if containsSub path (getChangefeedMatcher cf) = false then .ok false
  else if filepathExt path ≠ LogEXT then .ok false
  else
    match ParseLogFileName path with
    | none => .ok false
    | some pr =>
      if pr.2 ≠ RedoDDLLogFileType ∧ pr.2 ≠ RedoRowLogFileType then .error ()
      else .ok (decide (pr.1 < checkPointTs))

/-- One GC sweep of `bgGC` at flushed checkpoint `ckpt`:
`util.RemoveFilesIf` with `shouldRemoved`. -/
def gcOnce (cf : ChangeFeedID) (ckpt : Nat) (st : Storage) : Except Unit Storage :=
  removeFilesIfE (fun p => shouldRemoved cf p ckpt) st

/-- The `WalkDir` pass of `initMeta`: collects the paths of all `.meta`
files and decodes each one's `LogMeta` (empty objects are skipped; raw
non-empty bytes fail to unmarshal). -/
def collectWalk : Storage → Except Unit (List (List Char) × List LogMeta)
  | [] => .ok ([], [])
  | (p, c) :: rest =>
    if hasSuffixList p MetaEXT then
      match c with
      | .metaC lm =>
        match collectWalk rest with
        | .error u => .error u
        | .ok pr => .ok (p :: pr.1, lm :: pr.2)
      | .bytes [] =>
        match collectWalk rest with
        | .error u => .error u
        | .ok pr => .ok (p :: pr.1, pr.2)
      | .bytes (_ :: _) => .error ()
    else collectWalk rest

/-- Modelled from the spec: `common.ParseMeta` reduces a list of metas to
`checkpointTs = max(all.checkpointTs)` and
`resolvedTs = max(all.resolvedTs, checkpointTs)`; the function lives in
`cdc/redo/common` outside the provided sources. -/
def ParseMeta (metas : List LogMeta) : Nat × Nat :=
  let c := metas.foldl (fun acc lm => max acc lm.checkpointTs) 0
  let r := metas.foldl (fun acc lm => max acc lm.resolvedTs) 0
  (c, max r c)

/-- `metaManager.initMeta`: walk the storage collecting and decoding all
`.meta` files into a list seeded with `{startTs, startTs}`, reduce with
`ParseMeta`, panic if a reduced field is zero, seed the unflushed
timestamps, force a flush, and finally delete the discovered old files. -/
def initMeta (captureID : List Char) (cf : ChangeFeedID) (uuidStr : List Char)
    (startTs : Nat) (st : Storage) : Except RedoErr MgrState :=
  match collectWalk st with
  | .error _ => .error .redoMetaInitialize
  | .ok pr =>
    let metas : List LogMeta := { checkpointTs := startTs, resolvedTs := startTs } :: pr.2
    let red := ParseMeta metas
    if red.1 = 0 ∨ red.2 = 0 then .error .panicErr
    else
      let st0 : MgrState :=
        { ts := { metaCheckpointTs := { unflushed := red.1, flushed := 0 }
                  metaResolvedTs := { unflushed := red.2, flushed := 0 } }
          preMetaFile := []
          storage := st }
      match maybeFlushMeta allOkEnv captureID cf uuidStr st0 with
      | (.error _, _) => .error .redoMetaInitialize
      | (.ok _, st1) => .ok { st1 with storage := deletePaths st1.storage pr.1 }

/-- `metaManager.preCleanupExtStorage`: when the deletion marker exists,
sweep every file containing the changefeed matcher except the marker, then
delete the marker itself (a not-found error there is tolerated); when the
marker is absent, do nothing. -/
def preCleanupExtStorage (cf : ChangeFeedID) (st : Storage) : Except RedoErr Storage :=
  let deleteMarker := getDeletedChangefeedMarker cf
  if fileExists st deleteMarker = false then .ok st
  else
    let matcher := getChangefeedMatcher cf
    let st1 := removeFilesIfPure
      (fun path =>
        if path = deleteMarker ∨ containsSub path matcher = false then false else true)
      st
    if fileExists st1 deleteMarker then .ok (deletePath st1 deleteMarker)
    else .ok st1

/-- `metaManager.deleteAllLogs`: write the deletion marker (content the
single byte `D`), then sweep every file containing the changefeed matcher
except the marker itself. -/
def deleteAllLogs (cf : ChangeFeedID) (st : Storage) : Storage :=
  let deleteMarker := getDeletedChangefeedMarker cf
  let st1 := writeFile st deleteMarker (.bytes ['D'])
  let matcher := getChangefeedMatcher cf
  removeFilesIfPure
    (fun path =>
      if path = deleteMarker ∨ containsSub path matcher = false then false else true)
    st1

/-- `metaManager.Cleanup`: deletes metric label values (no observable state
here) and calls `deleteAllLogs`. -/
def Cleanup (cf : ChangeFeedID) (st : Storage) : Storage :=
  deleteAllLogs cf st

/-- The cause classes `captureImpl.Run` distinguishes via `errors.Cause`. -/
inductive ErrCause where
  | canceled
  | deadlineExceeded
  | other
  deriving DecidableEq, Repr

/-- Modelled from the spec: a non-nil Go error as classified by
`captureImpl.Run` — whether `cerror.ErrCaptureSuicide.Equal(err)` holds and
what `errors.Cause(err)` is. -/
structure GoError where
  isCaptureSuicide : Bool
  cause : ErrCause
  deriving DecidableEq, Repr

/-- The recovery test of `captureImpl.Run`:
`cerror.ErrCaptureSuicide.Equal(err) || context.Canceled == errors.Cause(err)
|| context.DeadlineExceeded == errors.Cause(err)`. -/
def runRecovers (e : GoError) : Bool :=
  e.isCaptureSuicide || decide (e.cause = .canceled) || decide (e.cause = .deadlineExceeded)

/-- The outer loop of `captureImpl.Run` over the successive non-nil errors
returned by the inner `c.run`: a recoverable error triggers another
iteration; any other error terminates the loop with that error. `none`
means every supplied iteration recovered. -/
def captureRun : List GoError → Option GoError
  | [] => none
  | e :: rest => if runRecovers e then captureRun rest else some e

/-- The arguments of the `rate.NewLimiter` call in `captureImpl.Run`:
the Go literal `0.05` (permits per second) and burst `2`. -/
def captureRunLimiterRate : ℚ := 5 / 100

/-- The burst argument of the `rate.NewLimiter` call in `captureImpl.Run`. -/
def captureRunLimiterBurst : ℕ := 2

/-- An `UpdateMeta` call whose arguments are ordered
(`checkpointTs ≤ resolvedTs`); flush ticks are always well-formed. -/
def opWellFormed : MetaOp → Bool
  | .update c r => decide (c ≤ r)
  | _ => true

/-- Order invariant between the two stateful timestamps: checkpoint at most
resolved, on both the unflushed and the flushed values. -/
def TsOrd (m : MetaTs) : Prop :=
  m.metaCheckpointTs.unflushed ≤ m.metaResolvedTs.unflushed ∧
  m.metaCheckpointTs.flushed ≤ m.metaResolvedTs.flushed

/-- The metas decoded by the `initMeta` walk: one `LogMeta` per `.meta` file
whose content is a decodable meta. -/
def metasOf (st : Storage) : List LogMeta :=
  st.filterMap (fun e =>
    if hasSuffixList e.1 MetaEXT then
      match e.2 with
      | .metaC lm => some lm
      | .bytes _ => none
    else none)

instance exceptDecEq {ε α : Type} [DecidableEq ε] [DecidableEq α] :
    DecidableEq (Except ε α) := fun x y =>
  match x, y with
  | .ok a, .ok b =>
    if h : a = b then .isTrue (h ▸ rfl) else .isFalse fun he => h (Except.ok.inj he)
  | .error a, .error b =>
    if h : a = b then .isTrue (h ▸ rfl) else .isFalse fun he => h (Except.error.inj he)
  | .ok _, .error _ => .isFalse fun he => Except.noConfusion he
  | .error _, .ok _ => .isFalse fun he => Except.noConfusion he

/-- A changefeed in the default namespace, used by the concrete scenarios. -/
def cfDefault : ChangeFeedID := { Namespace := "default".data, ID := "feed1".data }

/-- A capture id used by the concrete scenarios. -/
def cap1 : List Char := "cap1".data

/-- A fresh uuid string used by the concrete scenarios. -/
def uuid1 : List Char := "uuid1".data

theorem checkAndSetUnflushed_le (s : statefulRts) (v : Nat) :
    s.unflushed ≤ (checkAndSetUnflushed s v).2.unflushed := by
  unfold checkAndSetUnflushed
  split
  · exact le_refl _
  · next h => exact Nat.le_of_not_lt h

theorem checkAndSetUnflushed_flushed (s : statefulRts) (v : Nat) :
    (checkAndSetUnflushed s v).2.flushed = s.flushed := by
  unfold checkAndSetUnflushed
  split <;> rfl

theorem stepTs_mono (m : MetaTs) (op : MetaOp) (h : TsInv m) :
    (GetFlushedMeta m).checkpointTs ≤ (GetFlushedMeta (stepTs m op)).checkpointTs ∧
    (GetFlushedMeta m).resolvedTs ≤ (GetFlushedMeta (stepTs m op)).resolvedTs ∧
    TsInv (stepTs m op) := by
  obtain ⟨h1, h2⟩ := h
  cases op with
  | update c r =>
    have hcf := checkAndSetUnflushed_flushed m.metaCheckpointTs c
    have hrf := checkAndSetUnflushed_flushed m.metaResolvedTs r
    have hcu := checkAndSetUnflushed_le m.metaCheckpointTs c
    have hru := checkAndSetUnflushed_le m.metaResolvedTs r
    refine ⟨?_, ?_, ?_, ?_⟩ <;>
      simp only [stepTs, UpdateMeta, GetFlushedMeta, getFlushed, TsInv]
    · exact le_of_eq hcf.symm
    · exact le_of_eq hrf.symm
    · exact le_trans (le_of_eq hcf) (le_trans h1 hcu)
    · exact le_trans (le_of_eq hrf) (le_trans h2 hru)
  | flushOk =>
    simp only [stepTs]
    split
    · refine ⟨?_, ?_, ?_, ?_⟩ <;>
        simp only [GetFlushedMeta, postFlushMeta, setFlushed, getFlushed, getUnflushed,
          prepareForFlushMeta, TsInv]
      · exact h1
      · exact h2
      · exact le_refl _
      · exact le_refl _
    · exact ⟨le_refl _, le_refl _, h1, h2⟩
  | flushFail => exact ⟨le_refl _, le_refl _, h1, h2⟩

theorem runOps_mono (m : MetaTs) (ops : List MetaOp) (h : TsInv m) :
    (GetFlushedMeta m).checkpointTs ≤ (GetFlushedMeta (runOps m ops)).checkpointTs ∧
    (GetFlushedMeta m).resolvedTs ≤ (GetFlushedMeta (runOps m ops)).resolvedTs ∧
    TsInv (runOps m ops) := by
  induction ops generalizing m with
  | nil => exact ⟨le_refl _, le_refl _, h⟩
  | cons op rest ih =>
    obtain ⟨s1, s2, hinv⟩ := stepTs_mono m op h
    obtain ⟨r1, r2, rinv⟩ := ih (stepTs m op) hinv
    exact ⟨le_trans s1 r1, le_trans s2 r2, rinv⟩

theorem runOps_append (m : MetaTs) (ops1 ops2 : List MetaOp) :
    runOps m (ops1 ++ ops2) = runOps (runOps m ops1) ops2 := by
  induction ops1 generalizing m with
  | nil => rfl
  | cons op rest ih => simp [runOps, ih]

/-- C1: for every sequence of `UpdateMeta` calls interleaved with background
flushes, starting from any state satisfying the StatefulTs invariant
(`flushed ≤ unflushed` on both fields, as established by `initMeta`), the
flushed timestamps returned by `GetFlushedMeta` are monotonically
non-decreasing: an earlier observation is bounded by any later observation,
on both the checkpointTs and the resolvedTs, regardless of the argument
values passed to `UpdateMeta`. -/
theorem c1_getFlushedMeta_monotone (m : MetaTs) (h : TsInv m)
    (ops1 ops2 : List MetaOp) :
    (GetFlushedMeta (runOps m ops1)).checkpointTs ≤
      (GetFlushedMeta (runOps m (ops1 ++ ops2))).checkpointTs ∧
    (GetFlushedMeta (runOps m ops1)).resolvedTs ≤
      (GetFlushedMeta (runOps m (ops1 ++ ops2))).resolvedTs := by
  have hinv := (runOps_mono m ops1 h).2.2
  have hm := runOps_mono (runOps m ops1) ops2 hinv
  rw [runOps_append]
  exact ⟨hm.1, hm.2.1⟩

theorem c1_getFlushedMeta_monotone_witness :
    TsInv ⟨⟨5, 5⟩, ⟨5, 5⟩⟩ ∧
    ((GetFlushedMeta (runOps ⟨⟨5, 5⟩, ⟨5, 5⟩⟩ [.update 10 20])).checkpointTs ≤
      (GetFlushedMeta (runOps ⟨⟨5, 5⟩, ⟨5, 5⟩⟩ ([.update 10 20] ++ [.flushOk]))).checkpointTs ∧
    (GetFlushedMeta (runOps ⟨⟨5, 5⟩, ⟨5, 5⟩⟩ [.update 10 20])).resolvedTs ≤
      (GetFlushedMeta (runOps ⟨⟨5, 5⟩, ⟨5, 5⟩⟩ ([.update 10 20] ++ [.flushOk]))).resolvedTs) :=
  ⟨⟨by decide, by decide⟩,
    c1_getFlushedMeta_monotone ⟨⟨5, 5⟩, ⟨5, 5⟩⟩ ⟨by decide, by decide⟩
      [.update 10 20] [.flushOk]⟩

/-- C3: `UpdateMeta(checkpointTs, resolvedTs)` never fails (it is a total
state transformer) and check-and-sets each field independently: a field whose
new value is below the current unflushed value of that field is dropped (that
field is unchanged, with only a warning logged) while the other field is
still applied, and the flushed values are untouched; in particular, from
unflushed state (15, 25), `UpdateMeta(5, 30)` leaves the checkpointTs at 15
and advances the resolvedTs to 30. -/
theorem c3_updateMeta_fields_independent :
    (∀ (m : MetaTs) (c r : Nat),
      (UpdateMeta m c r).metaCheckpointTs.unflushed =
        (if c < m.metaCheckpointTs.unflushed then m.metaCheckpointTs.unflushed else c) ∧
      (UpdateMeta m c r).metaResolvedTs.unflushed =
        (if r < m.metaResolvedTs.unflushed then m.metaResolvedTs.unflushed else r) ∧
      (UpdateMeta m c r).metaCheckpointTs.flushed = m.metaCheckpointTs.flushed ∧
      (UpdateMeta m c r).metaResolvedTs.flushed = m.metaResolvedTs.flushed) ∧
    (UpdateMeta ⟨⟨15, 15⟩, ⟨25, 25⟩⟩ 5 30).metaCheckpointTs.unflushed = 15 ∧
    (UpdateMeta ⟨⟨15, 15⟩, ⟨25, 25⟩⟩ 5 30).metaResolvedTs.unflushed = 30 := by
  refine ⟨fun m c r => ?_, by decide, by decide⟩
  by_cases hc : c < m.metaCheckpointTs.unflushed <;>
    by_cases hr : r < m.metaResolvedTs.unflushed <;>
      simp [UpdateMeta, checkAndSetUnflushed, hc, hr]

/-- C2 counterexample: starting from the very state produced by
`initMeta(startTs = 5)` on empty storage (flushed = unflushed = (5, 5)), the
call `UpdateMeta(30, 10)` — whose arguments are not related by any
precondition — followed by one successful background flush leaves
`GetFlushedMeta` returning checkpointTs = 30 and resolvedTs = 10, so the
claimed invariant `checkpointTs ≤ resolvedTs` fails. -/
theorem c2_checkpoint_le_resolved_cex :
    (initMeta cap1 cfDefault uuid1 5 [] = .ok
      { ts := ⟨⟨5, 5⟩, ⟨5, 5⟩⟩
        preMetaFile := "cap1_default_feed1_meta_uuid1.meta".data
        storage := [("cap1_default_feed1_meta_uuid1.meta".data, .metaC ⟨5, 5⟩)] }) ∧
    ¬ ((GetFlushedMeta (runOps ⟨⟨5, 5⟩, ⟨5, 5⟩⟩ [.update 30 10, .flushOk])).checkpointTs ≤
       (GetFlushedMeta (runOps ⟨⟨5, 5⟩, ⟨5, 5⟩⟩ [.update 30 10, .flushOk])).resolvedTs) := by
  constructor
  · decide
  · decide

theorem stepTs_ord (m : MetaTs) (op : MetaOp) (h : TsOrd m)
    (hop : opWellFormed op = true) : TsOrd (stepTs m op) := by
  obtain ⟨h1, h2⟩ := h
  cases op with
  | update c r =>
    have hcr : c ≤ r := by simpa [opWellFormed] using hop
    constructor
    · by_cases hc : c < m.metaCheckpointTs.unflushed <;>
        by_cases hr : r < m.metaResolvedTs.unflushed <;>
          simp [stepTs, UpdateMeta, checkAndSetUnflushed, hc, hr] <;> omega
    · have hcf := checkAndSetUnflushed_flushed m.metaCheckpointTs c
      have hrf := checkAndSetUnflushed_flushed m.metaResolvedTs r
      simp only [stepTs, UpdateMeta]
      rw [hcf, hrf]
      exact h2
  | flushOk =>
    simp only [stepTs]
    split
    · constructor <;>
        simp only [postFlushMeta, setFlushed, prepareForFlushMeta, getUnflushed, getFlushed] <;>
        exact h1
    · exact ⟨h1, h2⟩
  | flushFail => exact ⟨h1, h2⟩

theorem runOps_ord (m : MetaTs) (ops : List MetaOp) (h : TsOrd m)
    (hops : ∀ op ∈ ops, opWellFormed op = true) : TsOrd (runOps m ops) := by
  induction ops generalizing m with
  | nil => exact h
  | cons op rest ih =>
    exact ih (stepTs m op) (stepTs_ord m op h (hops op (List.mem_cons_self op rest)))
      (fun o ho => hops o (List.mem_cons_of_mem op ho))

/-- C2 (amended): provided every `UpdateMeta` call passes an ordered pair
(`checkpointTs ≤ resolvedTs`, which is how the owner calls it) and the
initial state is ordered — as the state produced by `initMeta` is — the pair
returned by `GetFlushedMeta` satisfies `checkpointTs ≤ resolvedTs` after any
sequence of `UpdateMeta` calls and background flushes. Without that
precondition the invariant fails (see the counterexample). -/
theorem c2_checkpoint_le_resolved_amended (m : MetaTs) (h : TsOrd m)
    (ops : List MetaOp) (hops : ∀ op ∈ ops, opWellFormed op = true) :
    (GetFlushedMeta (runOps m ops)).checkpointTs ≤
      (GetFlushedMeta (runOps m ops)).resolvedTs := by
  have := (runOps_ord m ops h hops).2
  simpa [GetFlushedMeta, getFlushed] using this

theorem c2_checkpoint_le_resolved_amended_witness :
    TsOrd ⟨⟨5, 5⟩, ⟨5, 5⟩⟩ ∧
    (∀ op ∈ [MetaOp.update 10 20, MetaOp.flushOk], opWellFormed op = true) ∧
    (GetFlushedMeta (runOps ⟨⟨5, 5⟩, ⟨5, 5⟩⟩ [.update 10 20, .flushOk])).checkpointTs ≤
      (GetFlushedMeta (runOps ⟨⟨5, 5⟩, ⟨5, 5⟩⟩ [.update 10 20, .flushOk])).resolvedTs :=
  ⟨⟨by decide, by decide⟩, by decide,
    c2_checkpoint_le_resolved_amended ⟨⟨5, 5⟩, ⟨5, 5⟩⟩ ⟨by decide, by decide⟩
      [.update 10 20, .flushOk] (by decide)⟩

theorem filter_filter_bool {α : Type} (p q : α → Bool) (l : List α) :
    (l.filter p).filter q = l.filter (fun a => p a && q a) := by
  induction l with
  | nil => rfl
  | cons a t ih => by_cases hp : p a <;> by_cases hq : q a <;> simp [hp, hq, ih]

theorem fileExists_filter_of_keep (st : Storage) (p : List Char)
    (q : List Char × Content → Bool) (hex : fileExists st p = true)
    (hk : ∀ e : List Char × Content, e.1 = p → q e = true) :
    fileExists (st.filter q) p = true := by
  rw [fileExists, List.any_eq_true] at hex ⊢
  obtain ⟨e, hmem, he⟩ := hex
  exact ⟨e, List.mem_filter.mpr ⟨hmem, hk e (of_decide_eq_true he)⟩, he⟩

/-- C7: at startup, `preCleanupExtStorage` checks the deletion marker: when
the marker is present it removes exactly the files whose path contains the
changefeed matcher (excluding the marker itself) and then deletes the marker
(tolerating not-found on that final delete), and when the marker is absent
it removes nothing and succeeds; concretely, given the marker, three
feed-matching files and one foreign file, the three feed files and the
marker are removed and the foreign file is retained. -/
theorem c7_preCleanup_marker_recovery :
    (∀ (cf : ChangeFeedID) (st : Storage),
      preCleanupExtStorage cf st = .ok
        (if fileExists st (getDeletedChangefeedMarker cf) then
          st.filter (fun e => !(containsSub e.1 (getChangefeedMatcher cf)) &&
            !(decide (e.1 = getDeletedChangefeedMarker cf)))
        else st)) ∧
    preCleanupExtStorage cfDefault
      [(getDeletedChangefeedMarker cfDefault, .bytes ['D']),
       ("a_feed1_1.log".data, .bytes ['x']),
       ("a_feed1_2.log".data, .bytes ['y']),
       ("a_feed1_3.log".data, .bytes ['z']),
       ("other_feed2_1.log".data, .bytes ['w'])] =
      .ok [("other_feed2_1.log".data, .bytes ['w'])] := by
  constructor
  · intro cf st
    by_cases hex : fileExists st (getDeletedChangefeedMarker cf) = true
    · have hkeep : fileExists
          (removeFilesIfPure
            (fun path =>
              if path = getDeletedChangefeedMarker cf ∨
                  containsSub path (getChangefeedMatcher cf) = false
              then false else true)
            st)
          (getDeletedChangefeedMarker cf) = true := by
        apply fileExists_filter_of_keep _ _ _ hex
        intro e he
        simp [he]
      simp only [preCleanupExtStorage, hex, if_pos, if_neg, Bool.true_eq_false,
        if_false, hkeep, if_true]
      congr 1
      rw [deletePath, removeFilesIfPure, filter_filter_bool]
      apply List.filter_congr
      intro e _
      by_cases h1 : e.1 = getDeletedChangefeedMarker cf <;>
        by_cases h2 : containsSub e.1 (getChangefeedMatcher cf) = true <;>
          simp [h1, h2]
    · have hex' : fileExists st (getDeletedChangefeedMarker cf) = false :=
        Bool.eq_false_iff.mpr hex
      simp [preCleanupExtStorage, hex']
  · decide

/-- C10: after every `Cleanup` call, the deletion marker object
(`delete_<feed>` for the default namespace, `delete_<namespace>_<feed>`
otherwise) is present in external storage with content the single byte `D`:
`deleteAllLogs` writes the marker before sweeping and its removal predicate
explicitly excludes the marker, so `Cleanup` never deletes it. -/
theorem c10_cleanup_preserves_marker (cf : ChangeFeedID) (st : Storage) :
    lookupFile (Cleanup cf st) (getDeletedChangefeedMarker cf) =
      some (.bytes ['D']) := by
  simp [Cleanup, deleteAllLogs, writeFile, removeFilesIfPure, lookupFile, List.filter,
    List.find?]

/-- C8: for every non-nil error returned by one iteration of the capture's
inner `run`: errors of class `CaptureSuicide`, or whose cause is
`context.Canceled` or `context.DeadlineExceeded`, make the outer `Run` loop
perform another iteration, while any other error terminates the loop
returning that error. -/
theorem c8_run_error_classification :
    (∀ e : GoError, runRecovers e = true ↔
      (e.isCaptureSuicide = true ∨ e.cause = .canceled ∨ e.cause = .deadlineExceeded)) ∧
    (∀ (pre rest : List GoError), (∀ x ∈ pre, runRecovers x = true) →
      captureRun (pre ++ rest) = captureRun rest) ∧
    (∀ (e : GoError) (rest : List GoError), runRecovers e = false →
      captureRun (e :: rest) = some e) := by
  refine ⟨?_, ?_, ?_⟩
  · intro e
    simp [runRecovers, or_assoc]
  · intro pre rest
    induction pre with
    | nil => intro _; rfl
    | cons x t ih =>
      intro hpre
      have hx := hpre x (List.mem_cons_self x t)
      simpa [captureRun, hx] using ih (fun y hy => hpre y (List.mem_cons_of_mem x hy))
  · intro e rest h
    simp [captureRun, h]

theorem c8_run_error_classification_witness :
    (∀ x ∈ [GoError.mk true .other], runRecovers x = true) ∧
    captureRun ([GoError.mk true .other] ++ [GoError.mk false .other]) =
      captureRun [GoError.mk false .other] ∧
    runRecovers (GoError.mk false .other) = false ∧
    captureRun [GoError.mk false .other] = some (GoError.mk false .other) :=
  ⟨by decide,
    c8_run_error_classification.2.1 [GoError.mk true .other] [GoError.mk false .other]
      (by decide),
    by decide,
    c8_run_error_classification.2.2 (GoError.mk false .other) [] (by decide)⟩

/-- C9 counterexample: the rate limiter of the outer capture run loop is
constructed as `rate.NewLimiter(0.05, 2)`: its refill rate is 0.05 permits
per second, not the claimed 0.1 per second (2 per 20 seconds). -/
theorem c9_limiter_rate_cex :
    captureRunLimiterRate ≠ 1 / 10 ∧ ¬(captureRunLimiterRate * 20 = 2) := by
  constructor <;> norm_num [captureRunLimiterRate]

/-- C9 (amended): the outer capture run loop's rate limiter is constructed
with a refill rate of 0.05 permits per second — that is, 1 permit per 20
seconds — and a burst of 2, so in steady-state failure the capture restarts
at most 1 time per 20 seconds (within the claimed bound of 2). -/
theorem c9_limiter_rate_amended :
    captureRunLimiterRate = 1 / 20 ∧ captureRunLimiterBurst = 2 ∧
    captureRunLimiterRate * 20 = 1 := by
  refine ⟨?_, rfl, ?_⟩ <;> norm_num [captureRunLimiterRate]

theorem removeFilesIfE_no_panic (pred : List Char → Except Unit Bool) (st : Storage)
    (h : ∀ e ∈ st, pred e.1 ≠ .error ()) :
    removeFilesIfE pred st =
      .ok (st.filter (fun e => !(decide (pred e.1 = .ok true)))) := by
  induction st with
  | nil => rfl
  | cons e rest ih =>
    have he := h e (List.mem_cons_self e rest)
    have ihr := ih (fun x hx => h x (List.mem_cons_of_mem e hx))
    rcases hb : pred e.1 with u | b
    · cases u
      exact absurd hb he
    · cases b <;> simp [removeFilesIfE, hb, ihr, List.filter]

/-- C5: a single GC sweep with flushed checkpointTs = C removes exactly
those stored files whose path contains the changefeed matcher, whose
extension is `.log`, and whose name parses to a known log file type (row or
ddl) with encoded maxCommitTs strictly below C; a file with maxCommitTs
equal to C is retained, a matching `.log` file parsing to an unknown type
panics, and with C = 100 and matching files encoding 90, 100, 110 only the
file encoding 90 is removed. -/
theorem c5_gc_sweep_boundary :
    (∀ (cf : ChangeFeedID) (path : List Char) (ckpt : Nat),
      (shouldRemoved cf path ckpt = .ok true ↔
        (containsSub path (getChangefeedMatcher cf) = true ∧
          filepathExt path = LogEXT ∧
          ∃ ts ft, ParseLogFileName path = some (ts, ft) ∧
            (ft = RedoRowLogFileType ∨ ft = RedoDDLLogFileType) ∧ ts < ckpt)) ∧
      (shouldRemoved cf path ckpt = .error () ↔
        (containsSub path (getChangefeedMatcher cf) = true ∧
          filepathExt path = LogEXT ∧
          ∃ ts ft, ParseLogFileName path = some (ts, ft) ∧
            ¬(ft = RedoRowLogFileType) ∧ ¬(ft = RedoDDLLogFileType)))) ∧
    (∀ (cf : ChangeFeedID) (ckpt : Nat) (st : Storage),
      (∀ e ∈ st, shouldRemoved cf e.1 ckpt ≠ .error ()) →
      gcOnce cf ckpt st =
        .ok (st.filter (fun e => !(decide (shouldRemoved cf e.1 ckpt = .ok true))))) ∧
    gcOnce cfDefault 100
      [("cap_feed1_row_90.log".data, .bytes ['a']),
       ("cap_feed1_row_100.log".data, .bytes ['b']),
       ("cap_feed1_row_110.log".data, .bytes ['c'])] =
      .ok [("cap_feed1_row_100.log".data, .bytes ['b']),
       ("cap_feed1_row_110.log".data, .bytes ['c'])] := by
  refine ⟨?_, ?_, ?_⟩
  · intro cf path ckpt
    cases hA : containsSub path (getChangefeedMatcher cf) with
    | false => simp [shouldRemoved, hA]
    | true =>
      by_cases h2 : filepathExt path = LogEXT
      · rcases hp : ParseLogFileName path with _ | ⟨ts, ft⟩
        · simp [shouldRemoved, hA, h2, hp]
        · by_cases hr : ft = RedoRowLogFileType <;> by_cases hd : ft = RedoDDLLogFileType <;>
            simp [shouldRemoved, hA, h2, hp, hr, hd]
          · constructor
            · intro h
              exact ⟨ts, RedoRowLogFileType, ⟨rfl, rfl⟩, Or.inl rfl, h⟩
            · rintro ⟨a, b, ⟨rfl, rfl⟩, hk, hlt⟩
              exact hlt
          · constructor
            · intro h
              exact ⟨ts, RedoRowLogFileType, ⟨rfl, rfl⟩, Or.inl rfl, h⟩
            · rintro ⟨a, b, ⟨rfl, rfl⟩, hk, hlt⟩
              exact hlt
          · constructor
            · intro h
              exact ⟨ts, RedoDDLLogFileType, ⟨rfl, rfl⟩, Or.inr rfl, h⟩
            · rintro ⟨a, b, ⟨rfl, rfl⟩, hk, hlt⟩
              exact hlt
          · exact ⟨ts, ft, ⟨rfl, rfl⟩, hr, hd⟩
      · simp [shouldRemoved, hA, h2]
  · intro cf ckpt st h
    exact removeFilesIfE_no_panic (fun p => shouldRemoved cf p ckpt) st h
  · decide

theorem c5_gc_sweep_boundary_witness :
    (∀ e ∈ ([("cap_feed1_row_90.log".data, Content.bytes ['a'])] : Storage),
      shouldRemoved cfDefault e.1 100 ≠ .error ()) ∧
    gcOnce cfDefault 100 [("cap_feed1_row_90.log".data, Content.bytes ['a'])] =
      .ok (List.filter (fun e => !(decide (shouldRemoved cfDefault e.1 100 = .ok true)))
        [("cap_feed1_row_90.log".data, Content.bytes ['a'])]) :=
  ⟨by decide,
    c5_gc_sweep_boundary.2.1 cfDefault 100
      [("cap_feed1_row_90.log".data, Content.bytes ['a'])] (by decide)⟩

theorem getFlushedMeta_postFlushMeta (m : MetaTs) (meta : LogMeta) :
    GetFlushedMeta (postFlushMeta m meta) = meta := by
  cases meta
  rfl

theorem deletePath_of_not_exists (st : Storage) (p : List Char)
    (h : fileExists st p = false) : deletePath st p = st := by
  rw [deletePath, List.filter_eq_self]
  intro e he
  rw [fileExists, List.any_eq_false] at h
  simpa using h e he

theorem fileExists_deletePath (st : Storage) (p : List Char) :
    fileExists (deletePath st p) p = false := by
  rw [fileExists, List.any_eq_false]
  intro e he
  simpa using (List.mem_filter.mp he).2

theorem maybeFlushMeta_of_change (env : FlushEnv) (captureID : List Char)
    (cf : ChangeFeedID) (uuidStr : List Char) (st : MgrState)
    (hchange : (prepareForFlushMeta st.ts).1 = true) :
    maybeFlushMeta env captureID cf uuidStr st =
      match flush env captureID cf uuidStr st (prepareForFlushMeta st.ts).2 with
      | (.error e, st') => (.error e, st')
      | (.ok _, st') =>
        (.ok (), { st' with ts := postFlushMeta st'.ts (prepareForFlushMeta st.ts).2 }) := by
  rw [maybeFlushMeta]
  simp [hchange]

/-- C4: in every run of `maybeFlushMeta` that finds an advanced field, the
new `LogMeta` is written to a new uuid-suffixed filename, the previous meta
file is deleted only after that write succeeds (a failed write leaves the
storage untouched), and the flushed timestamps are published only after the
write succeeds; consequently, if marshalling, the write, or the delete
fails, the call returns an error and the timestamps observable via
`GetFlushedMeta` are unchanged, while on full success the new file holds
the snapshot, the previous file is gone and `GetFlushedMeta` returns the
flushed snapshot. -/
theorem c4_flush_order_and_errors (env : FlushEnv) (captureID : List Char)
    (cf : ChangeFeedID) (uuidStr : List Char) (st : MgrState)
    (hchange : (prepareForFlushMeta st.ts).1 = true)
    (hfresh : ¬(getMetafileName captureID cf uuidStr = st.preMetaFile)) :
    ((env.marshalOk = false ∨ env.writeOk = false ∨
        (env.deleteOk = false ∧ ¬(st.preMetaFile = []))) →
      (∃ er, (maybeFlushMeta env captureID cf uuidStr st).1 = .error er) ∧
      GetFlushedMeta (maybeFlushMeta env captureID cf uuidStr st).2.ts =
        GetFlushedMeta st.ts) ∧
    (env.writeOk = false →
      (maybeFlushMeta env captureID cf uuidStr st).2.storage = st.storage) ∧
    (env.marshalOk = true → env.writeOk = true → env.deleteOk = true →
      (maybeFlushMeta env captureID cf uuidStr st).1 = .ok () ∧
      lookupFile (maybeFlushMeta env captureID cf uuidStr st).2.storage
          (getMetafileName captureID cf uuidStr) =
        some (.metaC (prepareForFlushMeta st.ts).2) ∧
      (maybeFlushMeta env captureID cf uuidStr st).2.preMetaFile =
        getMetafileName captureID cf uuidStr ∧
      GetFlushedMeta (maybeFlushMeta env captureID cf uuidStr st).2.ts =
        (prepareForFlushMeta st.ts).2 ∧
      (¬(st.preMetaFile = []) →
        fileExists (maybeFlushMeta env captureID cf uuidStr st).2.storage
          st.preMetaFile = false)) := by
  obtain ⟨mo, wo, dok⟩ := env
  have hpre' : ¬(st.preMetaFile = getMetafileName captureID cf uuidStr) :=
    fun h => hfresh h.symm
  rw [maybeFlushMeta_of_change _ _ _ _ _ hchange]
  cases mo with
  | false =>
    refine ⟨fun _ => ⟨⟨.marshalFailed, ?_⟩, ?_⟩, fun _ => ?_, fun hmo => absurd hmo (by simp)⟩ <;>
      simp [flush]
  | true =>
    cases wo with
    | false =>
      refine ⟨fun _ => ⟨⟨.externalStorageAPI, ?_⟩, ?_⟩, fun _ => ?_,
        fun _ hwo => absurd hwo (by simp)⟩ <;> simp [flush]
    | true =>
      by_cases hpre : st.preMetaFile = []
      · cases dok with
        | false =>
          refine ⟨fun hf => ?_, fun hwo => absurd hwo (by simp), ?_⟩
          · rcases hf with hf | hf | ⟨_, hf⟩
            · exact absurd hf (by simp)
            · exact absurd hf (by simp)
            · exact absurd hpre hf
          · intro _ _ hd
            exact absurd hd (by simp)
        | true =>
          refine ⟨fun hf => ?_, fun hwo => absurd hwo (by simp), fun _ _ _ => ?_⟩
          · rcases hf with hf | hf | ⟨_, hf⟩
            · exact absurd hf (by simp)
            · exact absurd hf (by simp)
            · exact absurd hpre hf
          · refine ⟨?_, ?_, ?_, ?_, fun hne => absurd hpre hne⟩ <;>
              simp [flush, hpre, lookupFile, writeFile, List.find?,
                getFlushedMeta_postFlushMeta]
      · cases dok with
        | false =>
          refine ⟨fun _ => ⟨⟨.externalStorageAPI, ?_⟩, ?_⟩, fun hwo => absurd hwo (by simp),
            fun _ _ hd => absurd hd (by simp)⟩ <;>
            simp [flush, hpre, hpre']
        | true =>
          refine ⟨fun hf => ?_, fun hwo => absurd hwo (by simp), fun _ _ _ => ?_⟩
          · rcases hf with hf | hf | ⟨hf, _⟩
            · exact absurd hf (by simp)
            · exact absurd hf (by simp)
            · exact absurd hf (by simp)
          · refine ⟨?_, ?_, ?_, ?_, fun _ => ?_⟩
            · simp [flush, hpre, hpre']
            · simp only [flush, if_neg hpre, if_neg hpre']
              simp only [Bool.true_eq_false, if_false, if_neg (by simp : ¬(true = false))]
              simp [lookupFile, deletePath, writeFile, List.filter, List.find?, hfresh, hpre']
            · simp [flush, hpre, hpre']
            · simp [flush, hpre, hpre', getFlushedMeta_postFlushMeta]
            · simp only [flush, if_neg hpre, if_neg hpre']
              simp only [Bool.true_eq_false, if_false, if_neg (by simp : ¬(true = false))]
              exact fileExists_deletePath _ _

theorem c4_flush_order_and_errors_witness :
    (prepareForFlushMeta (MgrState.mk ⟨⟨10, 5⟩, ⟨20, 5⟩⟩ [] []).ts).1 = true ∧
    (maybeFlushMeta allOkEnv cap1 cfDefault uuid1 (MgrState.mk ⟨⟨10, 5⟩, ⟨20, 5⟩⟩ [] [])).1 =
      .ok () ∧
    GetFlushedMeta
        (maybeFlushMeta allOkEnv cap1 cfDefault uuid1
          (MgrState.mk ⟨⟨10, 5⟩, ⟨20, 5⟩⟩ [] [])).2.ts =
      (prepareForFlushMeta (MgrState.mk ⟨⟨10, 5⟩, ⟨20, 5⟩⟩ [] []).ts).2 := by
  have h := c4_flush_order_and_errors allOkEnv cap1 cfDefault uuid1
    (MgrState.mk ⟨⟨10, 5⟩, ⟨20, 5⟩⟩ [] []) (by decide) (by decide)
  exact ⟨by decide, (h.2.2 rfl rfl rfl).1, (h.2.2 rfl rfl rfl).2.2.2.1⟩

theorem flush_allOk_emptyPre (captureID : List Char) (cf : ChangeFeedID)
    (uuidStr : List Char) (ts : MetaTs) (stg : Storage) (meta : LogMeta) :
    flush allOkEnv captureID cf uuidStr { ts := ts, preMetaFile := [], storage := stg } meta =
      (.ok (), { ts := ts
                 preMetaFile := getMetafileName captureID cf uuidStr
                 storage := writeFile stg (getMetafileName captureID cf uuidStr)
                   (.metaC meta) }) := rfl

theorem collectWalk_ok (st : Storage) (toRemove : List (List Char)) (ms : List LogMeta)
    (h : collectWalk st = .ok (toRemove, ms)) :
    toRemove = (st.filter (fun e => hasSuffixList e.1 MetaEXT)).map Prod.fst ∧
    ms = metasOf st := by
  induction st generalizing toRemove ms with
  | nil =>
    simp only [collectWalk, Except.ok.injEq, Prod.mk.injEq] at h
    obtain ⟨h1, h2⟩ := h
    subst h1
    subst h2
    exact ⟨rfl, rfl⟩
  | cons e rest ih =>
    obtain ⟨p, c⟩ := e
    by_cases hs : hasSuffixList p MetaEXT = true
    · cases c with
      | metaC lm =>
        simp only [collectWalk] at h
        rw [if_pos hs] at h
        rcases hw : collectWalk rest with u | pr
        · rw [hw] at h
          exact absurd h (by simp)
        · rw [hw] at h
          obtain ⟨h1, h2⟩ := Prod.mk.injEq .. ▸ Except.ok.inj h
          obtain ⟨ih1, ih2⟩ := ih pr.1 pr.2 (by rw [hw])
          refine ⟨?_, ?_⟩
          · rw [← h1, ih1]
            simp [List.filter_cons, hs]
          · rw [← h2, ih2]
            simp [metasOf, hs]
      | bytes bs =>
        cases bs with
        | nil =>
          simp only [collectWalk] at h
          rw [if_pos hs] at h
          rcases hw : collectWalk rest with u | pr
          · rw [hw] at h
            exact absurd h (by simp)
          · rw [hw] at h
            obtain ⟨h1, h2⟩ := Prod.mk.injEq .. ▸ Except.ok.inj h
            obtain ⟨ih1, ih2⟩ := ih pr.1 pr.2 (by rw [hw])
            refine ⟨?_, ?_⟩
            · rw [← h1, ih1]
              simp [List.filter_cons, hs]
            · rw [← h2, ih2]
              simp [metasOf, hs]
        | cons b bs' =>
          simp only [collectWalk] at h
          rw [if_pos hs] at h
          exact absurd h (by simp)
    · simp only [collectWalk] at h
      rw [if_neg hs] at h
      obtain ⟨ih1, ih2⟩ := ih toRemove ms h
      have hs' : hasSuffixList p MetaEXT = false := Bool.eq_false_iff.mpr hs
      refine ⟨?_, ?_⟩
      · rw [ih1]
        simp [List.filter_cons, hs']
      · rw [ih2]
        simp [metasOf, hs']

theorem mem_toRemove_iff (st : Storage) (toRemove : List (List Char)) (ms : List LogMeta)
    (hwalk : collectWalk st = .ok (toRemove, ms)) (p : List Char) :
    p ∈ toRemove ↔ ∃ e ∈ st, e.1 = p ∧ hasSuffixList p MetaEXT = true := by
  rw [(collectWalk_ok st toRemove ms hwalk).1]
  constructor
  · intro hmem
    obtain ⟨e, hef, hep⟩ := List.mem_map.mp hmem
    obtain ⟨he, hs⟩ := List.mem_filter.mp hef
    exact ⟨e, he, hep, hep ▸ hs⟩
  · rintro ⟨e, he, rfl, hs⟩
    exact List.mem_map.mpr ⟨e, List.mem_filter.mpr ⟨he, hs⟩, rfl⟩

/-- C6: `initMeta(startTs)` seeds the collected meta list with
`{startTs, startTs}`, reads and decodes every `.meta` file found under the
storage root, reduces with `ParseMeta` (checkpoint = max of checkpoints,
resolved = max of resolveds and the checkpoint), panics when a reduced field
is zero, and otherwise flushes the reduced pair to one new uuid-suffixed
meta file and deletes the discovered old meta files, preserving every
non-meta file; with pre-existing metas (10,20) and (12,22) and startTs = 5
the initial flushed pair is (12,22) and exactly the new meta file plus the
stray non-matching file remain. -/
theorem c6_initMeta_reduce_and_swap (captureID : List Char) (cf : ChangeFeedID)
    (uuidStr : List Char) (startTs : Nat) (st : Storage)
    (toRemove : List (List Char)) (ms : List LogMeta) (c r : Nat)
    (hwalk : collectWalk st = .ok (toRemove, ms))
    (hred : ParseMeta ({ checkpointTs := startTs, resolvedTs := startTs } :: ms) = (c, r))
    (hfresh : fileExists st (getMetafileName captureID cf uuidStr) = false) :
    ms = metasOf st ∧
    ((c = 0 ∨ r = 0) → initMeta captureID cf uuidStr startTs st = .error .panicErr) ∧
    (¬(c = 0 ∨ r = 0) →
      initMeta captureID cf uuidStr startTs st = .ok
        { ts := ⟨⟨c, c⟩, ⟨r, r⟩⟩
          preMetaFile := getMetafileName captureID cf uuidStr
          storage := (getMetafileName captureID cf uuidStr, .metaC ⟨c, r⟩) ::
            st.filter (fun e => !(hasSuffixList e.1 MetaEXT)) }) ∧
    initMeta cap1 cfDefault uuid1 5
      [("cap1_default_feed1_meta_u0.meta".data, .metaC ⟨10, 20⟩),
       ("cap1_default_feed1_meta_u9.meta".data, .metaC ⟨12, 22⟩),
       ("stray_other.log".data, .bytes ['s'])] = .ok
      { ts := ⟨⟨12, 12⟩, ⟨22, 22⟩⟩
        preMetaFile := "cap1_default_feed1_meta_uuid1.meta".data
        storage := [("cap1_default_feed1_meta_uuid1.meta".data, .metaC ⟨12, 22⟩),
          ("stray_other.log".data, .bytes ['s'])] } ∧
    initMeta cap1 cfDefault uuid1 0 [] = .error .panicErr := by
  refine ⟨(collectWalk_ok st toRemove ms hwalk).2, ?_, ?_, by decide, by decide⟩
  · intro hzero
    simp only [initMeta, hwalk, hred]
    rw [if_pos hzero]
  · intro hnz
    have hc0 : ¬(c = 0) := fun h => hnz (Or.inl h)
    simp only [initMeta, hwalk, hred]
    rw [if_neg hnz]
    have hch : (prepareForFlushMeta (⟨⟨c, 0⟩, ⟨r, 0⟩⟩ : MetaTs)).1 = true := by
      simp [prepareForFlushMeta, getFlushed, getUnflushed, Nat.pos_of_ne_zero hc0]
    rw [maybeFlushMeta_of_change allOkEnv captureID cf uuidStr _ hch]
    rw [flush_allOk_emptyPre]
    have hmf : ¬(getMetafileName captureID cf uuidStr ∈ toRemove) := by
      rw [mem_toRemove_iff st toRemove ms hwalk]
      rintro ⟨e, he, hep, _⟩
      rw [fileExists, List.any_eq_false] at hfresh
      have := hfresh e he
      simp [hep] at this
    have hpt : ∀ e ∈ st,
        (!(decide (e.1 ∈ toRemove))) = !(hasSuffixList e.1 MetaEXT) := by
      intro e he
      by_cases hsuf : hasSuffixList e.1 MetaEXT = true
      · rw [hsuf,
          decide_eq_true ((mem_toRemove_iff st toRemove ms hwalk e.1).mpr ⟨e, he, rfl, hsuf⟩)]
      · have hnm : ¬(e.1 ∈ toRemove) := fun hmem => by
          obtain ⟨e', _, _, hs'⟩ := (mem_toRemove_iff st toRemove ms hwalk e.1).mp hmem
          exact hsuf hs'
        rw [decide_eq_false hnm, Bool.eq_false_iff.mpr hsuf]
    have hst : deletePaths
        ((getMetafileName captureID cf uuidStr,
          Content.metaC { checkpointTs := c, resolvedTs := r }) ::
          deletePath st (getMetafileName captureID cf uuidStr)) toRemove =
        (getMetafileName captureID cf uuidStr,
          Content.metaC { checkpointTs := c, resolvedTs := r }) ::
          st.filter (fun e => !(hasSuffixList e.1 MetaEXT)) := by
      rw [deletePath_of_not_exists st _ hfresh, deletePaths, List.filter_cons]
      simp only [decide_eq_false hmf, Bool.not_false, if_pos rfl, if_true]
      exact congrArg _ (List.filter_congr hpt)
    dsimp only [writeFile, postFlushMeta, setFlushed, prepareForFlushMeta, getFlushed,
      getUnflushed]
    rw [hst]

theorem c6_initMeta_reduce_and_swap_witness :
    collectWalk [("m1.meta".data, Content.metaC ⟨10, 20⟩)] =
      .ok (["m1.meta".data], [LogMeta.mk 10 20]) ∧
    ParseMeta ({ checkpointTs := 5, resolvedTs := 5 } :: [LogMeta.mk 10 20]) = (10, 20) ∧
    [LogMeta.mk 10 20] = metasOf [("m1.meta".data, Content.metaC ⟨10, 20⟩)] ∧
    initMeta cap1 cfDefault uuid1 5 [("m1.meta".data, Content.metaC ⟨10, 20⟩)] = .ok
      { ts := ⟨⟨10, 10⟩, ⟨20, 20⟩⟩
        preMetaFile := "cap1_default_feed1_meta_uuid1.meta".data
        storage := [("cap1_default_feed1_meta_uuid1.meta".data, .metaC ⟨10, 20⟩)] } := by
  have h := c6_initMeta_reduce_and_swap cap1 cfDefault uuid1 5
    [("m1.meta".data, Content.metaC ⟨10, 20⟩)] ["m1.meta".data] [LogMeta.mk 10 20]
    10 20 (by decide) (by decide) (by decide)
  exact ⟨by decide, by decide, h.1, by simpa using h.2.2.1 (by decide)⟩

end Tiflow
